import Mathlib

/-
Verification of the SPI 4-or-8-by-CS high-level analyzer
(src/HighLevelAnalyzer.py) against its design specification.

The decoder is embedded shallowly:
  - times are modelled as exact rationals (the source manipulates opaque
    time values with +, -, scalar multiplication and division only);
  - the mutable analyzer object becomes an explicit `State` record threaded
    through `decode`;
  - Python exceptions (the flush path that subtracts a `None` cycle start)
    become `Option`: `none` is an aborted call;
  - `list.sort(key=...)` is a stable sort by key and is modelled by the
    stable `List.insertionSort` on the same key.
-/

namespace SpiHla

/-- A collected nibble: (value, start time, end time), mirroring the tuples
stored in `self.mosi_nibbles` / `self.miso_nibbles`. -/
abbrev Sample := ℕ × ℚ × ℚ

/-- The running counters of `self.stats`, one field per dictionary key, in
insertion order: Packets group first, then Errors group. -/
structure Stats where
  totalPackets : ℕ
  fourBitPackets : ℕ
  eightBitPackets : ℕ
  totalErrors : ℕ
  lessThan4Clocks : ℕ
  clocksNotMult8 : ℕ
  mosiOddCount : ℕ
  misoOddCount : ℕ
  deriving Repr, DecidableEq

/-- All counters start at zero (`__init__`). -/
def initStats : Stats := ⟨0, 0, 0, 0, 0, 0, 0, 0⟩

/-- The two `+= 1` lines guarded by a 4-bit packet emission. -/
def incPacket4 (s : Stats) : Stats :=
  { s with totalPackets := s.totalPackets + 1, fourBitPackets := s.fourBitPackets + 1 }

/-- The two `+= 1` lines guarded by an 8-bit packet emission. -/
def incPacket8 (s : Stats) : Stats :=
  { s with totalPackets := s.totalPackets + 1, eightBitPackets := s.eightBitPackets + 1 }

/-- The two `+= 1` lines guarded by the less-than-4-clocks diagnostic. -/
def incErrLt4 (s : Stats) : Stats :=
  { s with totalErrors := s.totalErrors + 1, lessThan4Clocks := s.lessThan4Clocks + 1 }

/-- The two `+= 1` lines guarded by the clocks-not-multiple-of-8 diagnostic. -/
def incErrClocks (s : Stats) : Stats :=
  { s with totalErrors := s.totalErrors + 1, clocksNotMult8 := s.clocksNotMult8 + 1 }

/-- The two `+= 1` lines guarded by the MOSI odd-count diagnostic. -/
def incErrMosiOdd (s : Stats) : Stats :=
  { s with totalErrors := s.totalErrors + 1, mosiOddCount := s.mosiOddCount + 1 }

/-- The two `+= 1` lines guarded by the MISO odd-count diagnostic. -/
def incErrMisoOdd (s : Stats) : Stats :=
  { s with totalErrors := s.totalErrors + 1, misoOddCount := s.misoOddCount + 1 }

/-- A logical item dictionary built during flush:
keys dir, kind, val, key_time, msg. -/
structure Item where
  dir : String
  kind : String
  val : Option ℕ
  key_time : Option ℚ
  msg : Option String
  deriving Repr, DecidableEq

/-- The fixed `self._merge_order` set in `__init__`. -/
def merge_order : String := "high_then_low"

/-- `_merge_pair`: merge two nibbles into one byte. -/
def merge_pair (a b : ℕ) : ℕ :=
  if merge_order = "high_then_low" then ((a &&& 0xF) <<< 4) ||| (b &&& 0xF)
  else ((b &&& 0xF) <<< 4) ||| (a &&& 0xF)

/-- The pairing loop of `_build_items_for_dir` (`while i + 1 < n` plus the
trailing leftover), with the stats updates threaded in loop order. -/
def build_pairs (dir_label : String) : List Sample → Stats → List Item × Stats
  | (a, s1, _) :: (b, _, _) :: rest, st =>
      let byteVal := merge_pair a b
      let (items, st2) := build_pairs dir_label rest (incPacket8 st)
      (⟨dir_label, "byte_ok", some byteVal, some s1, none⟩ :: items, st2)
  | [(v, s, _)], st => ([⟨dir_label, "nibble_ok", some v, some s, none⟩], incPacket4 st)
  | [], st => ([], st)

/-- `_build_items_for_dir`: converts the collected nibbles of one direction
into logical items, updating the Packets counters. -/
def build_items_for_dir (dir_label : String) (nibbles : List Sample) (st : Stats) :
    List Item × Stats :=
  match nibbles with
  | [] => ([], st)
  | [(v, s, _)] => ([⟨dir_label, "nibble_ok", some v, some s, none⟩], incPacket4 st)
  | l => build_pairs dir_label l st

/-- Message text of the clocks diagnostic. -/
def clocks_msg (bits : ℕ) : String :=
  "Clocks = " ++ toString bits ++ " (not multiple of 8 and != 4)"

/-- Message text of the MOSI odd-count diagnostic. -/
def mosi_odd_msg (nm : ℕ) : String :=
  "MOSI nibble count = " ++ toString nm ++ " (odd > 1)"

/-- Message text of the MISO odd-count diagnostic. -/
def miso_odd_msg (ni : ℕ) : String :=
  "MISO nibble count = " ++ toString ni ++ " (odd > 1)"

/-- The less-than-4-clocks error dictionary appended by `_build_error_items`. -/
def lt4_item (cs_start : Option ℚ) : Item :=
  ⟨"BUS", "error", none, cs_start, some "Less than 4 clocks"⟩

/-- The clocks-not-multiple-of-8 error dictionary appended by `_build_error_items`. -/
def clk_item (cs_start : Option ℚ) (bits : ℕ) : Item :=
  ⟨"BUS", "error", none, cs_start, some (clocks_msg bits)⟩

/-- The MOSI odd-count error dictionary appended by `_build_error_items`. -/
def mosi_odd_item (cs_start : Option ℚ) (nm : ℕ) : Item :=
  ⟨"MOSI", "error", none, cs_start, some (mosi_odd_msg nm)⟩

/-- The MISO odd-count error dictionary appended by `_build_error_items`. -/
def miso_odd_item (cs_start : Option ℚ) (ni : ℕ) : Item :=
  ⟨"MISO", "error", none, cs_start, some (miso_odd_msg ni)⟩

/-- `_build_error_items`: the four diagnostic rules, with their stats
updates. `cs_start` is `self.cs_start` and may be `None`; the second
parameter mirrors the unused `end_time` parameter of the source. -/
def build_error_items (cs_start : Option ℚ) (_end_time : ℚ)
    (mosiN misoN : List Sample) (st : Stats) : List Item × Stats :=
  let nm := mosiN.length
  let ni := misoN.length
  let total_nibbles_est := max nm ni
  let total_bits_est := total_nibbles_est * 4
  let (busItems, st1) :=
    if total_nibbles_est = 0 then
      ([lt4_item cs_start], incErrLt4 st)
    else if ¬ (total_bits_est = 4 ∨ total_bits_est % 8 = 0) then
      ([clk_item cs_start total_bits_est], incErrClocks st)
    else ([], st)
  let (mItems, st2) :=
    if nm > 1 ∧ nm % 2 = 1 then ([mosi_odd_item cs_start nm], incErrMosiOdd st1)
    else ([], st1)
  let (iItems, st3) :=
    if ni > 1 ∧ ni % 2 = 1 then ([miso_odd_item cs_start ni], incErrMisoOdd st2)
    else ([], st2)
  (busItems ++ mItems ++ iItems, st3)

/-- An emitted `AnalyzerFrame`: type tag, begin time, end time and the data
dictionary as an ordered association list. -/
structure OutFrame where
  type : String
  tbegin : ℚ
  tend : ℚ
  data : List (String × String)
  deriving Repr, DecidableEq

/-- One uppercase hexadecimal digit. -/
def hexDigitChar (n : ℕ) : Char :=
  if n < 10 then Char.ofNat (48 + n) else Char.ofNat (55 + n)

/-- The Python format 0x%02X applied to the value masked to one byte. -/
def byteHex (v : ℕ) : String :=
  "0x" ++ String.mk [hexDigitChar ((v &&& 0xFF) / 16), hexDigitChar ((v &&& 0xFF) % 16)]

/-- The Python format 0x%X applied to the value masked to one nibble. -/
def nibbleHex (v : ℕ) : String :=
  "0x" ++ String.mk [hexDigitChar (v &&& 0xF)]

/-- The frame built for one item in the flush loop, by item kind. -/
def frame_of_item (it : Item) (b e : ℚ) : OutFrame :=
  if it.kind = "byte_ok" then
    ⟨"byte_ok", b, e, [("dir", it.dir), ("val", byteHex (it.val.getD 0))]⟩
  else if it.kind = "nibble_ok" then
    ⟨"nibble_ok", b, e, [("dir", it.dir), ("val", nibbleHex (it.val.getD 0))]⟩
  else
    ⟨"error", b, e, [("msg", it.msg.getD "Detected anomaly")]⟩

/-- Semicolon-joined rendering of the Packets counter group, in dictionary
insertion order. -/
def packets_msg (s : Stats) : String :=
  "Total packets: " ++ toString s.totalPackets ++
  "; 4bit packets: " ++ toString s.fourBitPackets ++
  "; 8bit packets: " ++ toString s.eightBitPackets

/-- Semicolon-joined rendering of the Errors counter group, in dictionary
insertion order. -/
def errors_msg (s : Stats) : String :=
  "Total errors: " ++ toString s.totalErrors ++
  "; Less than 4 clocks: " ++ toString s.lessThan4Clocks ++
  "; Clocks not multiple of 8 and != 4: " ++ toString s.clocksNotMult8 ++
  "; MOSI nibble count (odd > 1): " ++ toString s.mosiOddCount ++
  "; MISO nibble count (odd > 1): " ++ toString s.misoOddCount

/-- `generate`: the two stats frames, at `begin`, `begin+0.3*step`,
`begin+0.6*step`, `begin+0.9*step`. -/
def generate (b step : ℚ) (st : Stats) : List OutFrame :=
  [⟨"stats", b, b + step * (3/10), [("info", "packets"), ("msg", packets_msg st)]⟩,
   ⟨"stats", b + step * (6/10), b + step * (9/10), [("info", "errors"), ("msg", errors_msg st)]⟩]

/-- The sort key function of the flush: the key_time entry of an item; only
evaluated on items whose key is present (a missing key aborts the flush
earlier, see `flush_cs`). -/
def item_key (it : Item) : ℚ := it.key_time.getD 0

/-- The frame-emission loop of `_flush_cs` (`for i, it in enumerate(items,
start=1)`): `begin = cs_start + step*i`, `finish = begin + step*0.9`,
clamped down to `end_time`. -/
def alloc_frames (c endT step : ℚ) : ℕ → List Item → List OutFrame
  | _, [] => []
  | i, it :: rest =>
      let b := c + step * (i : ℚ)
      let f0 := b + step * (9/10)
      let f := if f0 > endT then endT else f0
      frame_of_item it b f :: alloc_frames c endT step (i + 1) rest

/-- Value of the loop variable `finish` after the last iteration of the
emission loop over `total ≥ 1` items (the finish of item number `total`). -/
def last_finish (c endT step : ℚ) (total : ℕ) : ℚ :=
  let b := c + step * (total : ℚ)
  let f0 := b + step * (9/10)
  if f0 > endT then endT else f0

/-- `_flush_cs`: build diagnostic and data items, sort them stably by key
time, allocate timestamps, and append the stats frames when enabled.
`none` models the `TypeError` the source raises when `self.cs_start` is
`None` and the item list is non-empty (either comparing `None` keys during
the sort, or computing `end_time - None` for the span). -/
def flush_cs (cs_start : Option ℚ) (end_time : ℚ) (mosiN misoN : List Sample)
    (st : Stats) (emit : Bool) : Option (List OutFrame × Stats) :=
  let (errItems, st1) := build_error_items cs_start end_time mosiN misoN st
  let (mItems, st2) := build_items_for_dir "MOSI" mosiN st1
  let (iItems, st3) := build_items_for_dir "MISO" misoN st2
  let items := errItems ++ mItems ++ iItems
  if items = [] then some ([], st3)
  else
    match cs_start with
    | none => none
    | some c =>
        let sorted := List.insertionSort (fun a b => item_key a ≤ item_key b) items
        let total := items.length
        let step := (end_time - c) / ((total : ℚ) + 2)
        let frames := alloc_frames c end_time step 1 sorted
        if emit then
          some (frames ++ generate (last_finish c end_time step total) step st3, st3)
        else some (frames, st3)

/-- An incoming frame delivered to `decode`: its type tag, time span, and
the optional `mosi` / `miso` entries of `frame.data` (`none` models both an
absent key and a non-sequence value, which the source skips alike). -/
structure InFrame where
  type : String
  start_time : ℚ
  end_time : ℚ
  mosi : Option (List ℤ)
  miso : Option (List ℤ)
  deriving Repr, DecidableEq

/-- The mutable analyzer state: the chip-select accumulator fields set by
`_reset_cs_state`, the stats counters, and the parsed stats setting. -/
structure State where
  cs_active : Bool
  cs_start : Option ℚ
  mosi_nibbles : List Sample
  miso_nibbles : List Sample
  stats : Stats
  emit_stats : Bool
  deriving Repr, DecidableEq

/-- Python `int(n) & 0xF` on an arbitrary integer. -/
def mask4 (n : ℤ) : ℕ := (n % 16).toNat

/-- The cycle-boundary marker frame of kind packet. -/
def packet_frame (b e : ℚ) (info : String) : OutFrame :=
  ⟨"packet", b, e, [("dir", "CS"), ("info", info)]⟩

/-- `_as_bool`: case-insensitive membership in true/yes/on/1. -/
def as_bool (choice : String) : Bool :=
  choice.toLower == "true" || choice.toLower == "yes" ||
  choice.toLower == "on" || choice.toLower == "1"

/-- The state after `__init__` with the given setting string: accumulator
reset, zero counters, parsed emit flag. -/
def init_state (choice : String) : State :=
  ⟨false, none, [], [], initStats, as_bool choice⟩

/-- `decode`: the per-event entry point. Returns the updated state and the
batch of emitted frames, or `none` when the source would raise. -/
def decode (σ : State) (f : InFrame) : Option (State × List OutFrame) :=
  if f.type = "enable" then
    some ({ σ with cs_active := true, cs_start := some f.start_time },
      [packet_frame f.start_time f.end_time "enable"])
  else if f.type = "disable" then
    match flush_cs σ.cs_start f.end_time σ.mosi_nibbles σ.miso_nibbles σ.stats σ.emit_stats with
    | none => none
    | some (frames, st2) =>
        some ({ σ with
                  cs_active := false
                  cs_start := none
                  mosi_nibbles := []
                  miso_nibbles := []
                  stats := st2 },
          frames ++ [packet_frame f.start_time f.end_time "disable"])
  else if f.type ≠ "result" then some (σ, [])
  else
    let σ1 := if σ.cs_active then σ
      else { σ with cs_active := true, cs_start := some f.start_time }
    let newMosi := (f.mosi.getD []).map fun n => (mask4 n, f.start_time, f.end_time)
    let newMiso := (f.miso.getD []).map fun n => (mask4 n, f.start_time, f.end_time)
    some ({ σ1 with
              mosi_nibbles := σ1.mosi_nibbles ++ newMosi
              miso_nibbles := σ1.miso_nibbles ++ newMiso }, [])

/-- Sequential decoding of an event list, concatenating the emitted
batches; `none` as soon as one call aborts. -/
def decode_list (σ : State) : List InFrame → Option (State × List OutFrame)
  | [] => some (σ, [])
  | f :: rest =>
      match decode σ f with
      | none => none
      | some (σ2, out) =>
          match decode_list σ2 rest with
          | none => none
          | some (σ3, out2) => some (σ3, out ++ out2)

/-- Pairing description taken from the specification text of the packet
builder: consume pairs from the front, each pair yields a Byte item with
value `(first.value <<< 4) ||| second.value` keyed at the start time of the
first nibble; a final unpaired Sample yields a Nibble item keyed at its own
start time. Used to compare the implementation against the spec wording. -/
def packet_builder_spec (dir_label : String) : List Sample → List Item
  | (a, s1, _) :: (b, _, _) :: rest =>
      ⟨dir_label, "byte_ok", some ((a <<< 4) ||| b), some s1, none⟩ ::
        packet_builder_spec dir_label rest
  | [(v, s, _)] => [⟨dir_label, "nibble_ok", some v, some s, none⟩]
  | [] => []

/-- The bookkeeping invariant of the two counter groups: each group total
is the sum of its specific categories. -/
def StatsInv (s : Stats) : Prop :=
  s.totalPackets = s.fourBitPackets + s.eightBitPackets ∧
  s.totalErrors = s.lessThan4Clocks + s.clocksNotMult8 + s.mosiOddCount + s.misoOddCount

/-- Agreement of two states on everything except the stats counters: the
accumulator fields and the emit setting. -/
def acc_eq (σ1 σ2 : State) : Prop :=
  σ1.cs_active = σ2.cs_active ∧ σ1.cs_start = σ2.cs_start ∧
  σ1.mosi_nibbles = σ2.mosi_nibbles ∧ σ1.miso_nibbles = σ2.miso_nibbles ∧
  σ1.emit_stats = σ2.emit_stats

/-- The data and diagnostic frames of a batch: everything except the
optional stats summary frames. -/
def non_stats (l : List OutFrame) : List OutFrame :=
  l.filter fun fr => fr.type != "stats"

/-! ### Basic lemmas about the builders -/

lemma build_items_eq_pairs (dir_label : String) (nibbles : List Sample) (st : Stats) :
    build_items_for_dir dir_label nibbles st = build_pairs dir_label nibbles st := by
  match nibbles with
  | [] => rfl
  | [(v, s, e)] => rfl
  | (a, sa, ea) :: (b, sb, eb) :: l => rfl

lemma build_error_items_fst (cs : Option ℚ) (e : ℚ) (mosiN misoN : List Sample) (st : Stats) :
    (build_error_items cs e mosiN misoN st).1 =
      (if max mosiN.length misoN.length = 0 then [lt4_item cs]
       else if ¬ (max mosiN.length misoN.length * 4 = 4 ∨
                  max mosiN.length misoN.length * 4 % 8 = 0) then
         [clk_item cs (max mosiN.length misoN.length * 4)]
       else []) ++
      (if mosiN.length > 1 ∧ mosiN.length % 2 = 1 then [mosi_odd_item cs mosiN.length]
       else []) ++
      (if misoN.length > 1 ∧ misoN.length % 2 = 1 then [miso_odd_item cs misoN.length]
       else []) := by
  simp only [build_error_items]
  split_ifs <;> rfl

lemma clocks_msg_ne_lt4 (b : ℕ) : clocks_msg b ≠ "Less than 4 clocks" := by
  intro h
  have h2 : (clocks_msg b).data.head? = some 'C' := rfl
  rw [h] at h2
  exact absurd h2 (by decide)

lemma item_ne_of_dir {a b : Item} (h : a.dir ≠ b.dir) : a ≠ b :=
  fun he => h (he ▸ rfl)

lemma clk_ne_lt4 (cs cs' : Option ℚ) (b : ℕ) : clk_item cs b ≠ lt4_item cs' := by
  intro h
  have h2 := congrArg Item.msg h
  simp only [clk_item, lt4_item, Option.some.injEq] at h2
  exact clocks_msg_ne_lt4 b h2

lemma mosi_odd_ne_lt4 (cs cs' : Option ℚ) (nm : ℕ) : mosi_odd_item cs nm ≠ lt4_item cs' :=
  item_ne_of_dir (by simp [mosi_odd_item, lt4_item])

lemma miso_odd_ne_lt4 (cs cs' : Option ℚ) (ni : ℕ) : miso_odd_item cs ni ≠ lt4_item cs' :=
  item_ne_of_dir (by simp [miso_odd_item, lt4_item])

lemma mosi_odd_ne_clk (cs cs' : Option ℚ) (nm b : ℕ) : mosi_odd_item cs nm ≠ clk_item cs' b :=
  item_ne_of_dir (by simp [mosi_odd_item, clk_item])

lemma miso_odd_ne_clk (cs cs' : Option ℚ) (ni b : ℕ) : miso_odd_item cs ni ≠ clk_item cs' b :=
  item_ne_of_dir (by simp [miso_odd_item, clk_item])

lemma mosi_odd_ne_miso_odd (cs cs' : Option ℚ) (nm ni : ℕ) :
    mosi_odd_item cs nm ≠ miso_odd_item cs' ni :=
  item_ne_of_dir (by simp [mosi_odd_item, miso_odd_item])

lemma mem_error_items_iff (cs : Option ℚ) (e : ℚ) (mosiN misoN : List Sample) (st : Stats)
    (it : Item) :
    it ∈ (build_error_items cs e mosiN misoN st).1 ↔
      (max mosiN.length misoN.length = 0 ∧ it = lt4_item cs) ∨
      (¬ max mosiN.length misoN.length = 0 ∧
        ¬ (max mosiN.length misoN.length * 4 = 4 ∨ max mosiN.length misoN.length * 4 % 8 = 0) ∧
        it = clk_item cs (max mosiN.length misoN.length * 4)) ∨
      (mosiN.length > 1 ∧ mosiN.length % 2 = 1 ∧ it = mosi_odd_item cs mosiN.length) ∨
      (misoN.length > 1 ∧ misoN.length % 2 = 1 ∧ it = miso_odd_item cs misoN.length) := by
  rw [build_error_items_fst]
  by_cases h1 : max mosiN.length misoN.length = 0 <;>
  by_cases h2 : max mosiN.length misoN.length * 4 = 4 ∨
    max mosiN.length misoN.length * 4 % 8 = 0 <;>
  by_cases h3 : mosiN.length > 1 ∧ mosiN.length % 2 = 1 <;>
  by_cases h4 : misoN.length > 1 ∧ misoN.length % 2 = 1 <;>
  simp [h1, h2, h3, h4] <;> tauto

/-- C2: the less-than-4-clocks diagnostic fires iff `max(nm, ni) = 0`; the
clocks diagnostic fires iff `max(nm, ni) > 0` and `max(nm, ni) * 4` is
neither 4 nor a multiple of 8; the two are mutually exclusive; and both
diagnostics are soft error items with direction BUS and sort key equal to
the cycle start. -/
theorem clock_diagnostics_fire_iff (cs : Option ℚ) (e : ℚ) (mosiN misoN : List Sample)
    (st : Stats) :
    (lt4_item cs ∈ (build_error_items cs e mosiN misoN st).1 ↔
      max mosiN.length misoN.length = 0) ∧
    (clk_item cs (max mosiN.length misoN.length * 4) ∈
        (build_error_items cs e mosiN misoN st).1 ↔
      (0 < max mosiN.length misoN.length ∧ max mosiN.length misoN.length * 4 ≠ 4 ∧
        ¬ (8 ∣ max mosiN.length misoN.length * 4))) ∧
    ¬ (lt4_item cs ∈ (build_error_items cs e mosiN misoN st).1 ∧
        clk_item cs (max mosiN.length misoN.length * 4) ∈
          (build_error_items cs e mosiN misoN st).1) ∧
    ((lt4_item cs).kind = "error" ∧ (lt4_item cs).dir = "BUS" ∧
      (lt4_item cs).key_time = cs) ∧
    (∀ b, (clk_item cs b).kind = "error" ∧ (clk_item cs b).dir = "BUS" ∧
      (clk_item cs b).key_time = cs) := by
  have hlt4 : lt4_item cs ∈ (build_error_items cs e mosiN misoN st).1 ↔
      max mosiN.length misoN.length = 0 := by
    rw [mem_error_items_iff]
    constructor
    · rintro (⟨h, -⟩ | ⟨-, -, h⟩ | ⟨-, -, h⟩ | ⟨-, -, h⟩)
      · exact h
      · exact absurd h.symm (clk_ne_lt4 _ _ _)
      · exact absurd h.symm (mosi_odd_ne_lt4 _ _ _)
      · exact absurd h.symm (miso_odd_ne_lt4 _ _ _)
    · exact fun h => Or.inl ⟨h, rfl⟩
  have hclk : clk_item cs (max mosiN.length misoN.length * 4) ∈
      (build_error_items cs e mosiN misoN st).1 ↔
      (0 < max mosiN.length misoN.length ∧ max mosiN.length misoN.length * 4 ≠ 4 ∧
        ¬ (8 ∣ max mosiN.length misoN.length * 4)) := by
    rw [mem_error_items_iff]
    constructor
    · rintro (⟨-, h⟩ | ⟨h1, h2, -⟩ | ⟨-, -, h⟩ | ⟨-, -, h⟩)
      · exact absurd h (clk_ne_lt4 _ _ _)
      · refine ⟨by omega, ?_, ?_⟩ <;> omega
      · exact absurd h.symm (mosi_odd_ne_clk _ _ _ _)
      · exact absurd h.symm (miso_odd_ne_clk _ _ _ _)
    · rintro ⟨h1, h2, h3⟩
      refine Or.inr (Or.inl ⟨by omega, ?_, rfl⟩)
      omega
  refine ⟨hlt4, hclk, ?_, ⟨rfl, rfl, rfl⟩, fun b => ⟨rfl, rfl, rfl⟩⟩
  rintro ⟨ha, hb⟩
  have h1 := hlt4.mp ha
  have h2 := (hclk.mp hb).1
  omega

/-- C3: the MOSI odd-count diagnostic fires iff `nm > 1` and `nm` is odd,
and the MISO odd-count diagnostic fires iff `ni > 1` and `ni` is odd,
unconditionally and independently of the clock rules; on a concrete cycle
with 3 MOSI and 5 MISO nibbles the clocks diagnostic and both odd-count
diagnostics all fire together. -/
theorem odd_count_diagnostics_fire_iff (cs : Option ℚ) (e : ℚ) (mosiN misoN : List Sample)
    (st : Stats) :
    (mosi_odd_item cs mosiN.length ∈ (build_error_items cs e mosiN misoN st).1 ↔
      1 < mosiN.length ∧ mosiN.length % 2 = 1) ∧
    (miso_odd_item cs misoN.length ∈ (build_error_items cs e mosiN misoN st).1 ↔
      1 < misoN.length ∧ misoN.length % 2 = 1) ∧
    (clk_item (some 0) 20 ∈
        (build_error_items (some 0) 1 [(1, 0, 0), (2, 0, 0), (3, 0, 0)]
          [(1, 0, 0), (2, 0, 0), (3, 0, 0), (4, 0, 0), (5, 0, 0)] initStats).1 ∧
      mosi_odd_item (some 0) 3 ∈
        (build_error_items (some 0) 1 [(1, 0, 0), (2, 0, 0), (3, 0, 0)]
          [(1, 0, 0), (2, 0, 0), (3, 0, 0), (4, 0, 0), (5, 0, 0)] initStats).1 ∧
      miso_odd_item (some 0) 5 ∈
        (build_error_items (some 0) 1 [(1, 0, 0), (2, 0, 0), (3, 0, 0)]
          [(1, 0, 0), (2, 0, 0), (3, 0, 0), (4, 0, 0), (5, 0, 0)] initStats).1) := by
  have hmosi : mosi_odd_item cs mosiN.length ∈ (build_error_items cs e mosiN misoN st).1 ↔
      1 < mosiN.length ∧ mosiN.length % 2 = 1 := by
    rw [mem_error_items_iff]
    constructor
    · rintro (⟨-, h⟩ | ⟨-, -, h⟩ | ⟨h1, h2, -⟩ | ⟨-, -, h⟩)
      · exact absurd h (mosi_odd_ne_lt4 _ _ _)
      · exact absurd h (mosi_odd_ne_clk _ _ _ _)
      · exact ⟨h1, h2⟩
      · exact absurd h (mosi_odd_ne_miso_odd _ _ _ _)
    · rintro ⟨h1, h2⟩
      exact Or.inr (Or.inr (Or.inl ⟨h1, h2, rfl⟩))
  have hmiso : miso_odd_item cs misoN.length ∈ (build_error_items cs e mosiN misoN st).1 ↔
      1 < misoN.length ∧ misoN.length % 2 = 1 := by
    rw [mem_error_items_iff]
    constructor
    · rintro (⟨-, h⟩ | ⟨-, -, h⟩ | ⟨-, -, h⟩ | ⟨h1, h2, -⟩)
      · exact absurd h (miso_odd_ne_lt4 _ _ _)
      · exact absurd h (miso_odd_ne_clk _ _ _ _)
      · exact absurd h.symm (mosi_odd_ne_miso_odd _ _ _ _)
      · exact ⟨h1, h2⟩
    · rintro ⟨h1, h2⟩
      exact Or.inr (Or.inr (Or.inr ⟨h1, h2, rfl⟩))
  refine ⟨hmosi, hmiso, ?_, ?_, ?_⟩
  · rw [mem_error_items_iff]
    exact Or.inr (Or.inl ⟨by decide, by decide, rfl⟩)
  · rw [mem_error_items_iff]
    exact Or.inr (Or.inr (Or.inl ⟨by decide, by decide, rfl⟩))
  · rw [mem_error_items_iff]
    exact Or.inr (Or.inr (Or.inr ⟨by decide, by decide, rfl⟩))

/-! ### C1: the packet builder -/

lemma land15_eq_self {a : ℕ} (h : a < 16) : a &&& 15 = a := by
  interval_cases a <;> rfl

lemma merge_pair_eq {a b : ℕ} (ha : a < 16) (hb : b < 16) :
    merge_pair a b = (a <<< 4) ||| b := by
  simp [merge_pair, merge_order, land15_eq_self ha, land15_eq_self hb]

lemma build_pairs_fst_spec (d : String) :
    ∀ (l : List Sample) (st : Stats), (∀ x ∈ l, x.1 < 16) →
      (build_pairs d l st).1 = packet_builder_spec d l
  | [], _, _ => rfl
  | [(_, _, _)], _, _ => rfl
  | (va, sa, ea) :: (vb, sb, eb) :: l, st, h => by
    have hva : va < 16 := h (va, sa, ea) (by simp)
    have hvb : vb < 16 := h (vb, sb, eb) (by simp)
    have hrec := build_pairs_fst_spec d l (incPacket8 st) fun x hx => h x (by simp [hx])
    rcases hbp : build_pairs d l (incPacket8 st) with ⟨items, st2⟩
    rw [hbp] at hrec
    simp only [build_pairs, packet_builder_spec, hbp]
    simp only at hrec
    simp [hrec, merge_pair_eq hva hvb]

lemma spec_count_byte (d : String) :
    ∀ l : List Sample,
      ((packet_builder_spec d l).countP fun it => it.kind == "byte_ok") = l.length / 2
  | [] => rfl
  | [(_, _, _)] => by simp [packet_builder_spec, List.countP_cons]
  | (va, sa, ea) :: (vb, sb, eb) :: l => by
    have hrec := spec_count_byte d l
    simp [packet_builder_spec, List.countP_cons, hrec]
    omega

lemma spec_count_nibble (d : String) :
    ∀ l : List Sample,
      ((packet_builder_spec d l).countP fun it => it.kind == "nibble_ok") = l.length % 2
  | [] => rfl
  | [(_, _, _)] => by simp [packet_builder_spec, List.countP_cons]
  | (va, sa, ea) :: (vb, sb, eb) :: l => by
    have hrec := spec_count_nibble d l
    simp [packet_builder_spec, List.countP_cons, hrec]
    omega

lemma spec_trailing (d : String) :
    ∀ l : List Sample, l.length % 2 = 1 →
      ∃ v s e pre, l.getLast? = some (v, s, e) ∧
        packet_builder_spec d l = pre ++ [⟨d, "nibble_ok", some v, some s, none⟩]
  | [], h => absurd h (by decide)
  | [(v, s, e)], _ => ⟨v, s, e, [], rfl, rfl⟩
  | (va, sa, ea) :: (vb, sb, eb) :: l, h => by
    have h2 : l.length % 2 = 1 := by
      simp only [List.length_cons] at h
      omega
    obtain ⟨v, s, e, pre, h3, h4⟩ := spec_trailing d l h2
    refine ⟨v, s, e,
      ⟨d, "byte_ok", some ((va <<< 4) ||| vb), some sa, none⟩ :: pre, ?_, ?_⟩
    · rw [List.getLast?_cons_cons]
      cases l with
      | nil => simp at h2
      | cons c l2 =>
          rw [List.getLast?_cons_cons]
          exact h3
    · simp [packet_builder_spec, h4]

/-- C1: on every nibble sequence (with in-range values) the per-direction
packet builder produces exactly the item list described by the spec:
pairs merged from the front with the first nibble in the high 4 bits and
the pair keyed at the start time of the first nibble; it emits exactly
`⌊c / 2⌋` Byte items, a trailing Nibble item iff `c` is odd, a single
Nibble item when `c = 1`, and nothing when `c = 0`. -/
theorem packet_builder_correct (dir_label : String) (ns : List Sample) (st : Stats)
    (h : ∀ x ∈ ns, x.1 < 16) :
    (build_items_for_dir dir_label ns st).1 = packet_builder_spec dir_label ns ∧
    ((build_items_for_dir dir_label ns st).1.countP fun it => it.kind == "byte_ok") =
      ns.length / 2 ∧
    ((build_items_for_dir dir_label ns st).1.countP fun it => it.kind == "nibble_ok") =
      ns.length % 2 ∧
    (ns.length % 2 = 1 → ∃ v s e pre, ns.getLast? = some (v, s, e) ∧
      (build_items_for_dir dir_label ns st).1 =
        pre ++ [⟨dir_label, "nibble_ok", some v, some s, none⟩]) ∧
    (ns = [] → (build_items_for_dir dir_label ns st).1 = []) ∧
    (∀ v s e, ns = [(v, s, e)] →
      (build_items_for_dir dir_label ns st).1 =
        [⟨dir_label, "nibble_ok", some v, some s, none⟩]) := by
  have heq : (build_items_for_dir dir_label ns st).1 = packet_builder_spec dir_label ns := by
    rw [build_items_eq_pairs]
    exact build_pairs_fst_spec dir_label ns st h
  refine ⟨heq, ?_, ?_, ?_, ?_, ?_⟩
  · rw [heq]
    exact spec_count_byte dir_label ns
  · rw [heq]
    exact spec_count_nibble dir_label ns
  · intro hodd
    rw [heq]
    exact spec_trailing dir_label ns hodd
  · intro hnil
    subst hnil
    rfl
  · intro v s e hns
    subst hns
    rfl

/-- Witness for C1: the builder applied to the three in-range nibbles
1, 2, 3 (an odd count). -/
theorem packet_builder_correct_witness :
    (∀ x ∈ [((1 : ℕ), (0 : ℚ), (1 : ℚ)), (2, 1, 2), (3, 2, 3)], x.1 < 16) ∧
    ((build_items_for_dir "MOSI" [(1, 0, 1), (2, 1, 2), (3, 2, 3)] initStats).1 =
        packet_builder_spec "MOSI" [(1, 0, 1), (2, 1, 2), (3, 2, 3)] ∧
      ((build_items_for_dir "MOSI" [(1, 0, 1), (2, 1, 2), (3, 2, 3)] initStats).1.countP
          fun it => it.kind == "byte_ok") =
        ([((1 : ℕ), (0 : ℚ), (1 : ℚ)), (2, 1, 2), (3, 2, 3)].length) / 2 ∧
      ((build_items_for_dir "MOSI" [(1, 0, 1), (2, 1, 2), (3, 2, 3)] initStats).1.countP
          fun it => it.kind == "nibble_ok") =
        ([((1 : ℕ), (0 : ℚ), (1 : ℚ)), (2, 1, 2), (3, 2, 3)].length) % 2 ∧
      (([((1 : ℕ), (0 : ℚ), (1 : ℚ)), (2, 1, 2), (3, 2, 3)].length) % 2 = 1 →
        ∃ v s e pre, [((1 : ℕ), (0 : ℚ), (1 : ℚ)), (2, 1, 2), (3, 2, 3)].getLast? =
            some (v, s, e) ∧
          (build_items_for_dir "MOSI" [(1, 0, 1), (2, 1, 2), (3, 2, 3)] initStats).1 =
            pre ++ [⟨"MOSI", "nibble_ok", some v, some s, none⟩]) ∧
      (([((1 : ℕ), (0 : ℚ), (1 : ℚ)), (2, 1, 2), (3, 2, 3)] : List Sample) = [] →
        (build_items_for_dir "MOSI" [(1, 0, 1), (2, 1, 2), (3, 2, 3)] initStats).1 = []) ∧
      (∀ v s e, ([((1 : ℕ), (0 : ℚ), (1 : ℚ)), (2, 1, 2), (3, 2, 3)] : List Sample) =
          [(v, s, e)] →
        (build_items_for_dir "MOSI" [(1, 0, 1), (2, 1, 2), (3, 2, 3)] initStats).1 =
          [⟨"MOSI", "nibble_ok", some v, some s, none⟩])) :=
  ⟨by decide,
    packet_builder_correct "MOSI" [(1, 0, 1), (2, 1, 2), (3, 2, 3)] initStats (by decide)⟩

/-! ### C6: values are masked on intake -/

/-- C6: on every result event, decode succeeds and emits nothing; the
values appended to each accumulator are the source values of the event masked to
their low 4 bits (the stored value is congruent to the source value modulo
16), so every stored value is in [0, 15]; out-of-range values are never
rejected and never abort decoding. -/
theorem sample_values_masked (σ : State) (f : InFrame) (h : f.type = "result") :
    ∃ σ2, decode σ f = some (σ2, []) ∧
      σ2.mosi_nibbles = σ.mosi_nibbles ++
        ((f.mosi.getD []).map fun n => (mask4 n, f.start_time, f.end_time)) ∧
      σ2.miso_nibbles = σ.miso_nibbles ++
        ((f.miso.getD []).map fun n => (mask4 n, f.start_time, f.end_time)) ∧
      ∀ n : ℤ, (mask4 n : ℤ) = n % 16 ∧ mask4 n < 16 := by
  have hm : ∀ n : ℤ, (mask4 n : ℤ) = n % 16 ∧ mask4 n < 16 := by
    intro n
    have h1 : 0 ≤ n % 16 := Int.emod_nonneg n (by norm_num)
    have h2 : n % 16 < 16 := Int.emod_lt_of_pos n (by norm_num)
    unfold mask4
    constructor
    · rw [Int.toNat_of_nonneg h1]
    · omega
  simp only [decode, h]
  norm_num
  cases hact : σ.cs_active <;> simp [hact] <;> exact hm

/-- Witness for C6: a result event carrying the out-of-range values 300
and -1 is accepted and masked. -/
theorem sample_values_masked_witness :
    ∃ σ2, decode (init_state "False") ⟨"result", 0, 1, some [300, -1], none⟩ = some (σ2, []) ∧
      σ2.mosi_nibbles = ([] : List Sample) ++
        ([(300 : ℤ), -1].map fun n => (mask4 n, (0 : ℚ), (1 : ℚ))) ∧
      σ2.miso_nibbles = ([] : List Sample) ++
        (([] : List ℤ).map fun n => (mask4 n, (0 : ℚ), (1 : ℚ))) ∧
      ∀ n : ℤ, (mask4 n : ℤ) = n % 16 ∧ mask4 n < 16 :=
  sample_values_masked (init_state "False") ⟨"result", 0, 1, some [300, -1], none⟩ rfl

/-! ### C7: auto-open on a sample while idle -/

/-- C7: a result event delivered in the Idle state auto-opens a cycle:
the cycle start is synthesized from the start time of the event, the state
becomes Active, no output frame and no diagnostic is emitted, and the
resulting state is exactly the one produced by an explicit enable event at
the same start time followed by the same result event. -/
theorem auto_open_on_sample (σ : State) (f : InFrame) (h : f.type = "result")
    (hidle : σ.cs_active = false) :
    ∃ σ2, decode σ f = some (σ2, []) ∧ σ2.cs_active = true ∧
      σ2.cs_start = some f.start_time ∧
      ∀ e : ℚ, ∃ σe out, decode σ ⟨"enable", f.start_time, e, none, none⟩ = some (σe, out) ∧
        decode σe f = some (σ2, []) := by
  refine ⟨{ σ with
              cs_active := true
              cs_start := some f.start_time
              mosi_nibbles := σ.mosi_nibbles ++
                ((f.mosi.getD []).map fun n => (mask4 n, f.start_time, f.end_time))
              miso_nibbles := σ.miso_nibbles ++
                ((f.miso.getD []).map fun n => (mask4 n, f.start_time, f.end_time)) },
        ?_, rfl, rfl, fun e => ?_⟩
  · simp only [decode, h, hidle]
    rfl
  · refine ⟨{ σ with cs_active := true, cs_start := some f.start_time },
          [packet_frame f.start_time e "enable"], rfl, ?_⟩
    simp only [decode, h]
    rfl

/-- Witness for C7: a result event delivered to the freshly constructed
decoder auto-opens a cycle at its start time. -/
theorem auto_open_on_sample_witness :
    ∃ σ2, decode (init_state "False") ⟨"result", 2, 3, some [5], none⟩ = some (σ2, []) ∧
      σ2.cs_active = true ∧ σ2.cs_start = some 2 ∧
      ∀ e : ℚ, ∃ σe out,
        decode (init_state "False") ⟨"enable", 2, e, none, none⟩ = some (σe, out) ∧
        decode σe ⟨"result", 2, 3, some [5], none⟩ = some (σ2, []) :=
  auto_open_on_sample (init_state "False") ⟨"result", 2, 3, some [5], none⟩ rfl rfl

/-! ### C9: disable from idle aborts -/

/-- C9: a disable event received while no cycle is open (no cycle start,
empty accumulators) is still flushed; the less-than-4-clocks rule makes the
item list non-empty, the window computation is reached with no cycle start,
and decode aborts with no event list. -/
theorem disable_from_idle_aborts (σ : State) (f : InFrame) (h : f.type = "disable")
    (hstart : σ.cs_start = none) (hm : σ.mosi_nibbles = []) (hi : σ.miso_nibbles = []) :
    decode σ f = none ∧
      lt4_item none ∈ (build_error_items none f.end_time [] [] σ.stats).1 := by
  have hfl : flush_cs none f.end_time [] [] σ.stats σ.emit_stats = none := rfl
  constructor
  · simp only [decode, h, hstart, hm, hi, hfl]
    rfl
  · rw [mem_error_items_iff]
    exact Or.inl ⟨rfl, rfl⟩

/-- Witness for C9: a disable event right after construction aborts the
decode call. -/
theorem disable_from_idle_aborts_witness :
    decode (init_state "False") ⟨"disable", 4, 5, none, none⟩ = none ∧
      lt4_item none ∈ (build_error_items none 5 [] [] (init_state "False").stats).1 :=
  disable_from_idle_aborts (init_state "False") ⟨"disable", 4, 5, none, none⟩ rfl rfl rfl rfl

/-! ### C10: the stats totals invariant -/

lemma some_pair_inj {α β : Type} {a c : α} {b d : β}
    (h : (some (a, b) : Option (α × β)) = some (c, d)) : a = c ∧ b = d := by
  obtain h2 := Option.some.inj h
  exact ⟨congrArg Prod.fst h2, congrArg Prod.snd h2⟩

lemma statsInv_incPacket4 {s : Stats} (h : StatsInv s) : StatsInv (incPacket4 s) := by
  obtain ⟨h1, h2⟩ := h
  exact ⟨by simp [incPacket4]; omega, by simp [incPacket4, h2]⟩

lemma statsInv_incPacket8 {s : Stats} (h : StatsInv s) : StatsInv (incPacket8 s) := by
  obtain ⟨h1, h2⟩ := h
  exact ⟨by simp [incPacket8]; omega, by simp [incPacket8, h2]⟩

lemma statsInv_incErrLt4 {s : Stats} (h : StatsInv s) : StatsInv (incErrLt4 s) := by
  obtain ⟨h1, h2⟩ := h
  exact ⟨by simp [incErrLt4, h1], by simp [incErrLt4]; omega⟩

lemma statsInv_incErrClocks {s : Stats} (h : StatsInv s) : StatsInv (incErrClocks s) := by
  obtain ⟨h1, h2⟩ := h
  exact ⟨by simp [incErrClocks, h1], by simp [incErrClocks]; omega⟩

lemma statsInv_incErrMosiOdd {s : Stats} (h : StatsInv s) : StatsInv (incErrMosiOdd s) := by
  obtain ⟨h1, h2⟩ := h
  exact ⟨by simp [incErrMosiOdd, h1], by simp [incErrMosiOdd]; omega⟩

lemma statsInv_incErrMisoOdd {s : Stats} (h : StatsInv s) : StatsInv (incErrMisoOdd s) := by
  obtain ⟨h1, h2⟩ := h
  exact ⟨by simp [incErrMisoOdd, h1], by simp [incErrMisoOdd]; omega⟩

lemma statsInv_build_pairs (d : String) :
    ∀ (l : List Sample) (s : Stats), StatsInv s → StatsInv (build_pairs d l s).2
  | [], _, h => h
  | [(_, _, _)], _, h => statsInv_incPacket4 h
  | (va, sa, ea) :: (vb, sb, eb) :: l, s, h => by
    have hrec := statsInv_build_pairs d l (incPacket8 s) (statsInv_incPacket8 h)
    rcases hbp : build_pairs d l (incPacket8 s) with ⟨items, st2⟩
    rw [hbp] at hrec
    simp only [build_pairs, hbp]
    exact hrec

lemma statsInv_build_items (d : String) (l : List Sample) (s : Stats) (h : StatsInv s) :
    StatsInv (build_items_for_dir d l s).2 := by
  rw [build_items_eq_pairs]
  exact statsInv_build_pairs d l s h

lemma statsInv_build_error (cs : Option ℚ) (e : ℚ) (m i : List Sample) (st : Stats)
    (h : StatsInv st) : StatsInv (build_error_items cs e m i st).2 := by
  simp only [build_error_items]
  split_ifs <;>
    simp only <;>
    first
      | exact h
      | exact statsInv_incErrLt4 h
      | exact statsInv_incErrClocks h
      | exact statsInv_incErrMosiOdd h
      | exact statsInv_incErrMisoOdd h
      | exact statsInv_incErrMosiOdd (statsInv_incErrLt4 h)
      | exact statsInv_incErrMosiOdd (statsInv_incErrClocks h)
      | exact statsInv_incErrMisoOdd (statsInv_incErrLt4 h)
      | exact statsInv_incErrMisoOdd (statsInv_incErrClocks h)
      | exact statsInv_incErrMisoOdd (statsInv_incErrMosiOdd h)
      | exact statsInv_incErrMisoOdd (statsInv_incErrMosiOdd (statsInv_incErrLt4 h))
      | exact statsInv_incErrMisoOdd (statsInv_incErrMosiOdd (statsInv_incErrClocks h))

lemma statsInv_flush {cs : Option ℚ} {e : ℚ} {m i : List Sample} {st : Stats} {emit : Bool}
    {frames : List OutFrame} {st2 : Stats} (h : StatsInv st)
    (hf : flush_cs cs e m i st emit = some (frames, st2)) : StatsInv st2 := by
  have h1 := statsInv_build_error cs e m i st h
  rcases hbe : build_error_items cs e m i st with ⟨errItems, stE⟩
  rw [hbe] at h1
  have h2 := statsInv_build_items "MOSI" m stE h1
  rcases hbm : build_items_for_dir "MOSI" m stE with ⟨mItems, stM⟩
  rw [hbm] at h2
  have h3 := statsInv_build_items "MISO" i stM h2
  rcases hbi : build_items_for_dir "MISO" i stM with ⟨iItems, stI⟩
  rw [hbi] at h3
  simp only [flush_cs, hbe, hbm, hbi] at hf
  split at hf
  · obtain ⟨-, h5⟩ := some_pair_inj hf
    exact h5 ▸ h3
  · split at hf
    · exact absurd hf (by simp)
    · split at hf <;>
      · obtain ⟨-, h5⟩ := some_pair_inj hf
        exact h5 ▸ h3

/-- C10: after construction the counter groups satisfy the totals
invariant (Total packets = 4bit + 8bit, Total errors = sum of the four
error categories), and every successful decode call preserves it. -/
theorem stats_totals_invariant :
    (∀ choice, StatsInv (init_state choice).stats) ∧
    (∀ σ f σ2 out, StatsInv σ.stats → decode σ f = some (σ2, out) →
      StatsInv σ2.stats) := by
  constructor
  · exact fun _ => ⟨rfl, rfl⟩
  · intro σ f σ2 out h hd
    unfold decode at hd
    split_ifs at hd with h1 h2 h3 h4
    · obtain ⟨h5, -⟩ := some_pair_inj hd
      subst h5
      exact h
    · rcases hfl : flush_cs σ.cs_start f.end_time σ.mosi_nibbles σ.miso_nibbles σ.stats
          σ.emit_stats with - | ⟨frames, st2⟩
      · rw [hfl] at hd
        exact absurd hd (by simp)
      · rw [hfl] at hd
        obtain ⟨h5, -⟩ := some_pair_inj hd
        subst h5
        exact statsInv_flush h hfl
    · obtain ⟨h5, -⟩ := some_pair_inj hd
      subst h5
      exact h
    · obtain ⟨h5, -⟩ := some_pair_inj hd
      subst h5
      exact h
    · obtain ⟨h5, -⟩ := some_pair_inj hd
      subst h5
      exact h

/-- Witness for C10: the invariant holds initially and is preserved across
a concrete enable event. -/
theorem stats_totals_invariant_witness :
    StatsInv ({ init_state "False" with
                  cs_active := true
                  cs_start := some 0 } : State).stats :=
  stats_totals_invariant.2 (init_state "False") ⟨"enable", 0, 1, none, none⟩
    ({ init_state "False" with cs_active := true, cs_start := some 0 })
    [packet_frame 0 1 "enable"] ⟨rfl, rfl⟩ rfl

/-! ### C8: the flush resets the accumulator -/

lemma build_pairs_fst_indep (d : String) :
    ∀ (l : List Sample) (st st' : Stats), (build_pairs d l st).1 = (build_pairs d l st').1
  | [], _, _ => rfl
  | [(_, _, _)], _, _ => rfl
  | (va, sa, ea) :: (vb, sb, eb) :: l, st, st' => by
    have hrec := build_pairs_fst_indep d l (incPacket8 st) (incPacket8 st')
    rcases hp1 : build_pairs d l (incPacket8 st) with ⟨i1, s1⟩
    rcases hp2 : build_pairs d l (incPacket8 st') with ⟨i2, s2⟩
    rw [hp1, hp2] at hrec
    simp only at hrec
    simp only [build_pairs, hp1, hp2]
    simp [hrec]

lemma build_items_fst_indep (d : String) (l : List Sample) (st st' : Stats) :
    (build_items_for_dir d l st).1 = (build_items_for_dir d l st').1 := by
  rw [build_items_eq_pairs, build_items_eq_pairs]
  exact build_pairs_fst_indep d l st st'

lemma build_error_fst_indep (cs : Option ℚ) (e : ℚ) (m i : List Sample) (st st' : Stats) :
    (build_error_items cs e m i st).1 = (build_error_items cs e m i st').1 := by
  rw [build_error_items_fst, build_error_items_fst]

lemma non_stats_append (l1 l2 : List OutFrame) :
    non_stats (l1 ++ l2) = non_stats l1 ++ non_stats l2 := by
  simp [non_stats]

lemma non_stats_generate (b step : ℚ) (st : Stats) : non_stats (generate b step st) = [] := rfl

lemma flush_cs_congr (cs : Option ℚ) (e : ℚ) (m i : List Sample) (st st' : Stats)
    (emit : Bool) :
    (flush_cs cs e m i st emit = none ↔ flush_cs cs e m i st' emit = none) ∧
    ∀ fr1 s1 fr2 s2, flush_cs cs e m i st emit = some (fr1, s1) →
      flush_cs cs e m i st' emit = some (fr2, s2) → non_stats fr1 = non_stats fr2 := by
  have he := build_error_fst_indep cs e m i st st'
  rcases hbe : build_error_items cs e m i st with ⟨err1, stE1⟩
  rcases hbe' : build_error_items cs e m i st' with ⟨err2, stE2⟩
  rw [hbe, hbe'] at he
  simp only at he
  subst he
  have hm := build_items_fst_indep "MOSI" m stE1 stE2
  rcases hbm : build_items_for_dir "MOSI" m stE1 with ⟨m1, stM1⟩
  rcases hbm' : build_items_for_dir "MOSI" m stE2 with ⟨m2, stM2⟩
  rw [hbm, hbm'] at hm
  simp only at hm
  subst hm
  have hi := build_items_fst_indep "MISO" i stM1 stM2
  rcases hbi : build_items_for_dir "MISO" i stM1 with ⟨i1, stI1⟩
  rcases hbi' : build_items_for_dir "MISO" i stM2 with ⟨i2, stI2⟩
  rw [hbi, hbi'] at hi
  simp only at hi
  subst hi
  simp only [flush_cs, hbe, hbe', hbm, hbm', hbi, hbi']
  split_ifs with hempty hemit
  · constructor
    · simp
    · intro fr1 s1 fr2 s2 ha hb
      obtain ⟨hf1, -⟩ := some_pair_inj ha
      obtain ⟨hf2, -⟩ := some_pair_inj hb
      rw [← hf1, ← hf2]
  · cases cs with
    | none => exact ⟨by simp, fun fr1 s1 fr2 s2 ha hb => absurd ha (by simp)⟩
    | some c =>
        refine ⟨by simp, fun fr1 s1 fr2 s2 ha hb => ?_⟩
        obtain ⟨hf1, -⟩ := some_pair_inj ha
        obtain ⟨hf2, -⟩ := some_pair_inj hb
        rw [← hf1, ← hf2, non_stats_append, non_stats_append, non_stats_generate,
          non_stats_generate]
  · cases cs with
    | none => exact ⟨by simp, fun fr1 s1 fr2 s2 ha hb => absurd ha (by simp)⟩
    | some c =>
        refine ⟨by simp, fun fr1 s1 fr2 s2 ha hb => ?_⟩
        obtain ⟨hf1, -⟩ := some_pair_inj ha
        obtain ⟨hf2, -⟩ := some_pair_inj hb
        rw [← hf1, ← hf2]

lemma decode_congr (σa σb : State) (hacc : acc_eq σa σb) (f : InFrame) :
    (decode σa f = none ↔ decode σb f = none) ∧
    ∀ τ1 out1 τ2 out2, decode σa f = some (τ1, out1) → decode σb f = some (τ2, out2) →
      acc_eq τ1 τ2 ∧ non_stats out1 = non_stats out2 := by
  obtain ⟨h1, h2, h3, h4, h5⟩ := hacc
  by_cases ht1 : f.type = "enable"
  · simp only [decode, ht1, reduceIte]
    refine ⟨by simp, fun τ1 out1 τ2 out2 ha hb => ?_⟩
    obtain ⟨hs1, ho1⟩ := some_pair_inj ha
    obtain ⟨hs2, ho2⟩ := some_pair_inj hb
    subst hs1
    subst hs2
    exact ⟨⟨rfl, rfl, h3, h4, h5⟩, by rw [← ho1, ← ho2]⟩
  · by_cases ht2 : f.type = "disable"
    · simp only [decode, ht1, ht2, reduceIte]
      rw [← h2, ← h3, ← h4, ← h5]
      have hc := flush_cs_congr σa.cs_start f.end_time σa.mosi_nibbles σa.miso_nibbles
        σa.stats σb.stats σa.emit_stats
      rcases hfa : flush_cs σa.cs_start f.end_time σa.mosi_nibbles σa.miso_nibbles
          σa.stats σa.emit_stats with - | ⟨fr1, s1⟩ <;>
        rcases hfb : flush_cs σa.cs_start f.end_time σa.mosi_nibbles σa.miso_nibbles
          σb.stats σa.emit_stats with - | ⟨fr2, s2⟩
      · exact ⟨by simp, fun τ1 out1 τ2 out2 ha hb => absurd ha (by simp)⟩
      · have hx := hc.1.mp hfa
        rw [hfb] at hx
        exact absurd hx (by simp)
      · have hx := hc.1.mpr hfb
        rw [hfa] at hx
        exact absurd hx (by simp)
      · refine ⟨by simp, fun τ1 out1 τ2 out2 ha hb => ?_⟩
        obtain ⟨hs1, ho1⟩ := some_pair_inj ha
        obtain ⟨hs2, ho2⟩ := some_pair_inj hb
        subst hs1
        subst hs2
        refine ⟨⟨rfl, rfl, rfl, rfl, rfl⟩, ?_⟩
        rw [← ho1, ← ho2, non_stats_append, non_stats_append]
        rw [hc.2 fr1 s1 fr2 s2 hfa hfb]
    · by_cases ht3 : f.type = "result"
      · simp only [decode, ht1, ht2, ht3, reduceIte, ne_eq, not_true_eq_false,
          Bool.false_eq_true]
        rw [← h1]
        cases hact : σa.cs_active
        · simp only [Bool.false_eq_true, if_false]
          refine ⟨by simp, fun τ1 out1 τ2 out2 ha hb => ?_⟩
          obtain ⟨hs1, ho1⟩ := some_pair_inj ha
          obtain ⟨hs2, ho2⟩ := some_pair_inj hb
          subst hs1
          subst hs2
          refine ⟨⟨rfl, rfl, ?_, ?_, h5⟩, by rw [← ho1, ← ho2]⟩
          · show σa.mosi_nibbles ++ _ = σb.mosi_nibbles ++ _
            rw [h3]
          · show σa.miso_nibbles ++ _ = σb.miso_nibbles ++ _
            rw [h4]
        · simp only [if_true]
          refine ⟨by simp, fun τ1 out1 τ2 out2 ha hb => ?_⟩
          obtain ⟨hs1, ho1⟩ := some_pair_inj ha
          obtain ⟨hs2, ho2⟩ := some_pair_inj hb
          subst hs1
          subst hs2
          refine ⟨⟨h1, h2, ?_, ?_, h5⟩, by rw [← ho1, ← ho2]⟩
          · show σa.mosi_nibbles ++ _ = σb.mosi_nibbles ++ _
            rw [h3]
          · show σa.miso_nibbles ++ _ = σb.miso_nibbles ++ _
            rw [h4]
      · simp only [decode, ht1, ht2, ht3, reduceIte, ne_eq, not_false_eq_true]
        refine ⟨by simp, fun τ1 out1 τ2 out2 ha hb => ?_⟩
        obtain ⟨hs1, ho1⟩ := some_pair_inj ha
        obtain ⟨hs2, ho2⟩ := some_pair_inj hb
        subst hs1
        subst hs2
        exact ⟨⟨h1, h2, h3, h4, h5⟩, by rw [← ho1, ← ho2]⟩

lemma decode_list_congr (evs : List InFrame) :
    ∀ σa σb, acc_eq σa σb →
      (decode_list σa evs = none ↔ decode_list σb evs = none) ∧
      ∀ τ1 out1 τ2 out2, decode_list σa evs = some (τ1, out1) →
        decode_list σb evs = some (τ2, out2) →
        acc_eq τ1 τ2 ∧ non_stats out1 = non_stats out2 := by
  induction evs with
  | nil =>
      intro σa σb hacc
      refine ⟨by simp [decode_list], fun τ1 out1 τ2 out2 ha hb => ?_⟩
      simp only [decode_list] at ha hb
      obtain ⟨hs1, ho1⟩ := some_pair_inj ha
      obtain ⟨hs2, ho2⟩ := some_pair_inj hb
      subst hs1
      subst hs2
      exact ⟨hacc, by rw [← ho1, ← ho2]⟩
  | cons f rest ih =>
      intro σa σb hacc
      have hstep := decode_congr σa σb hacc f
      simp only [decode_list]
      rcases hda : decode σa f with - | ⟨σa2, outa⟩ <;>
        rcases hdb : decode σb f with - | ⟨σb2, outb⟩
      · exact ⟨by simp, fun τ1 out1 τ2 out2 ha hb => absurd ha (by simp)⟩
      · have hx := hstep.1.mp hda
        rw [hdb] at hx
        exact absurd hx (by simp)
      · have hx := hstep.1.mpr hdb
        rw [hda] at hx
        exact absurd hx (by simp)
      · rw [hda, hdb] at hstep
        obtain ⟨hacc2, hout⟩ := hstep.2 σa2 outa σb2 outb rfl rfl
        dsimp only
        have hrec := ih σa2 σb2 hacc2
        rcases hla : decode_list σa2 rest with - | ⟨τa, outa2⟩ <;>
          rcases hlb : decode_list σb2 rest with - | ⟨τb, outb2⟩
        · exact ⟨by simp, fun τ1 out1 τ2 out2 ha hb => absurd ha (by simp)⟩
        · have hx := hrec.1.mp hla
          rw [hlb] at hx
          exact absurd hx (by simp)
        · have hx := hrec.1.mpr hlb
          rw [hla] at hx
          exact absurd hx (by simp)
        · rw [hla, hlb] at hrec
          obtain ⟨hacc3, hout2⟩ := hrec.2 τa outa2 τb outb2 rfl rfl
          refine ⟨by simp, fun τ1 out1 τ2 out2 ha hb => ?_⟩
          obtain ⟨hs1, ho1⟩ := some_pair_inj ha
          obtain ⟨hs2, ho2⟩ := some_pair_inj hb
          subst hs1
          subst hs2
          refine ⟨hacc3, ?_⟩
          rw [← ho1, ← ho2, non_stats_append, non_stats_append, hout, hout2]

/-- C8: a successful disable leaves the accumulator inactive with a
cleared cycle start and empty nibble sequences (only the stats carry
over); and from any two states that agree on the accumulator and the emit
setting — whatever their stats — the same subsequent event list yields the
same accumulators and exactly the same data and diagnostic frames. -/
theorem flush_resets_accumulator :
    (∀ σ f σ2 out, f.type = "disable" → decode σ f = some (σ2, out) →
      σ2.cs_active = false ∧ σ2.cs_start = none ∧ σ2.mosi_nibbles = [] ∧
        σ2.miso_nibbles = [] ∧ σ2.emit_stats = σ.emit_stats) ∧
    (∀ evs σa σb, acc_eq σa σb →
      ((decode_list σa evs = none ↔ decode_list σb evs = none) ∧
        ∀ τ1 out1 τ2 out2, decode_list σa evs = some (τ1, out1) →
          decode_list σb evs = some (τ2, out2) →
          acc_eq τ1 τ2 ∧ non_stats out1 = non_stats out2)) := by
  constructor
  · intro σ f σ2 out h hd
    unfold decode at hd
    rw [h] at hd
    simp only [reduceIte] at hd
    rcases hfl : flush_cs σ.cs_start f.end_time σ.mosi_nibbles σ.miso_nibbles σ.stats
        σ.emit_stats with - | ⟨frames, st2⟩
    · rw [hfl] at hd
      exact absurd hd (by simp)
    · rw [hfl] at hd
      obtain ⟨h5, -⟩ := some_pair_inj hd
      subst h5
      exact ⟨rfl, rfl, rfl, rfl, rfl⟩
  · exact fun evs σa σb hacc => decode_list_congr evs σa σb hacc

/-! ### C4: timestamp allocation -/

lemma frame_of_item_tbegin (it : Item) (b e : ℚ) : (frame_of_item it b e).tbegin = b := by
  simp only [frame_of_item]
  split_ifs <;> rfl

lemma frame_of_item_tend (it : Item) (b e : ℚ) : (frame_of_item it b e).tend = e := by
  simp only [frame_of_item]
  split_ifs <;> rfl

lemma alloc_frames_length (c endT step : ℚ) :
    ∀ (i : ℕ) (l : List Item), (alloc_frames c endT step i l).length = l.length
  | _, [] => rfl
  | i, it :: rest => by
      simp only [alloc_frames, List.length_cons]
      rw [alloc_frames_length c endT step (i + 1) rest]

lemma alloc_frames_getElem (c endT step : ℚ) :
    ∀ (l : List Item) (i j : ℕ) (hj : j < l.length)
      (hj2 : j < (alloc_frames c endT step i l).length),
      (alloc_frames c endT step i l).get ⟨j, hj2⟩ =
        frame_of_item (l.get ⟨j, hj⟩) (c + step * ((i + j : ℕ) : ℚ))
          (if c + step * ((i + j : ℕ) : ℚ) + step * (9/10) > endT then endT
           else c + step * ((i + j : ℕ) : ℚ) + step * (9/10))
  | it :: rest, i, 0, hj, hj2 => by
      simp [alloc_frames]
  | it :: rest, i, j + 1, hj, hj2 => by
      have hj3 : j < rest.length := by simpa using hj
      have hj4 : j < (alloc_frames c endT step (i + 1) rest).length := by
        rw [alloc_frames_length]
        exact hj3
      have hidx : (i + 1) + j = i + (j + 1) := by omega
      have := alloc_frames_getElem c endT step rest (i + 1) j hj3 hj4
      rw [hidx] at this
      simpa [alloc_frames] using this

/-- C4: for every successful flush of a cycle window with
`cycle_start < cycle_end`, the emitted batch (diagnostics, data items, and
the stats events when enabled) has strictly increasing begin times, every
span lies strictly inside the window, and with
`step = (cycle_end - cycle_start) / (total + 2)` the `i`-th allocated item
(1-indexed) begins at `cycle_start + step * i` and ends at
`begin + step * 0.9` clamped down to `cycle_end`. -/
theorem flush_timestamps_in_window (c endT : ℚ) (mosiN misoN : List Sample) (st : Stats)
    (emit : Bool) (frames : List OutFrame) (st2 : Stats)
    (hlt : c < endT)
    (hf : flush_cs (some c) endT mosiN misoN st emit = some (frames, st2)) :
    (∀ i j : Fin frames.length, (i : ℕ) < (j : ℕ) →
      (frames.get i).tbegin < (frames.get j).tbegin) ∧
    (∀ fr ∈ frames, c < fr.tbegin ∧ fr.tbegin < fr.tend ∧ fr.tend < endT) ∧
    (∀ i (hi : i < (if emit then frames.length - 2 else frames.length)),
      ∃ hi2 : i < frames.length,
        (frames.get ⟨i, hi2⟩).tbegin =
          c + ((endT - c) /
            (((if emit then frames.length - 2 else frames.length) : ℕ) + 2)) *
            ((i : ℚ) + 1) ∧
        (frames.get ⟨i, hi2⟩).tend =
          min ((frames.get ⟨i, hi2⟩).tbegin +
            ((endT - c) /
              (((if emit then frames.length - 2 else frames.length) : ℕ) + 2)) *
              (9/10)) endT) := by
  rcases hbe : build_error_items (some c) endT mosiN misoN st with ⟨errI, stE⟩
  rcases hbm : build_items_for_dir "MOSI" mosiN stE with ⟨mI, stM⟩
  rcases hbi : build_items_for_dir "MISO" misoN stM with ⟨iI, stI⟩
  simp only [flush_cs, hbe, hbm, hbi] at hf
  by_cases hempty : errI ++ mI ++ iI = []
  · rw [if_pos hempty] at hf
    obtain ⟨hfr, -⟩ := some_pair_inj hf
    subst hfr
    refine ⟨?_, ?_, ?_⟩
    · rintro ⟨i, hi⟩
      simp at hi
    · intro fr hfr2
      simp at hfr2
    · intro i hi
      cases emit <;> simp at hi
  · rw [if_neg hempty] at hf
    set items := errI ++ mI ++ iI with hitems
    set total := items.length with htotal
    have htot0 : 0 < total := List.length_pos.mpr hempty
    set step := (endT - c) / ((total : ℚ) + 2) with hstepdef
    have hstep_pos : 0 < step := div_pos (by linarith) (by positivity)
    have hspan : c + step * ((total : ℚ) + 2) = endT := by
      rw [hstepdef, div_mul_cancel₀]
      · ring
      · positivity
    have hclamp_lt : ∀ q : ℚ, q ≤ (total : ℚ) → c + step * q + step * (9/10) < endT := by
      intro q hq
      have h2 : step * (q + 9/10) < step * ((total : ℚ) + 2) :=
        mul_lt_mul_of_pos_left (by linarith) hstep_pos
      have h3 : step * q + step * (9/10) = step * (q + 9/10) := by ring
      linarith
    set sorted := List.insertionSort (fun a b => item_key a ≤ item_key b) items with hsorted
    have hslen : sorted.length = total := by
      rw [hsorted, List.length_insertionSort]
    have halloclen : (alloc_frames c endT step 1 sorted).length = total := by
      rw [alloc_frames_length, hslen]
    have hallocB : ∀ j (hj : j < total) (hj2 : j < (alloc_frames c endT step 1 sorted).length),
        ((alloc_frames c endT step 1 sorted).get ⟨j, hj2⟩).tbegin =
          c + step * ((j : ℚ) + 1) ∧
        ((alloc_frames c endT step 1 sorted).get ⟨j, hj2⟩).tend =
          c + step * ((j : ℚ) + 1) + step * (9/10) := by
      intro j hj hj2
      have hj3 : j < sorted.length := by rw [hslen]; exact hj
      rw [alloc_frames_getElem c endT step sorted 1 j hj3 hj2]
      have hcast : (((1 + j : ℕ)) : ℚ) = (j : ℚ) + 1 := by push_cast; ring
      have hle : (j : ℚ) + 1 ≤ (total : ℚ) := by exact_mod_cast Nat.succ_le_of_lt hj
      rw [hcast, if_neg (not_lt.mpr (le_of_lt (hclamp_lt ((j : ℚ) + 1) hle)))]
      exact ⟨frame_of_item_tbegin _ _ _, frame_of_item_tend _ _ _⟩
    have hjq : ∀ j : ℕ, j < total → (j : ℚ) + 1 ≤ (total : ℚ) := fun j hj => by
      exact_mod_cast Nat.succ_le_of_lt hj
    have hlast : last_finish c endT step total = c + step * (total : ℚ) + step * (9/10) := by
      simp only [last_finish]
      rw [if_neg (not_lt.mpr (le_of_lt (hclamp_lt (total : ℚ) le_rfl)))]
    cases emit with
    | false =>
        simp only [Bool.false_eq_true, if_false] at hf
        obtain ⟨hfr, -⟩ := some_pair_inj hf
        simp only [Bool.false_eq_true, if_false]
        subst hfr
        have hBs : ∀ j (hj2 : j < (alloc_frames c endT step 1 sorted).length),
            ((alloc_frames c endT step 1 sorted).get ⟨j, hj2⟩).tbegin =
              c + step * ((j : ℚ) + 1) := by
          intro j hj2
          exact (hallocB j (by rw [← halloclen]; exact hj2) hj2).1
        refine ⟨?_, ?_, ?_⟩
        · rintro ⟨i, hi⟩ ⟨j, hj⟩ hij
          rw [hBs i hi, hBs j hj]
          have hc2 : (i : ℚ) + 1 < (j : ℚ) + 1 := by
            have : (i : ℚ) < (j : ℚ) := by exact_mod_cast hij
            linarith
          have := mul_lt_mul_of_pos_left hc2 hstep_pos
          linarith
        · intro fr hmem
          obtain ⟨⟨j, hj⟩, hget⟩ := List.mem_iff_get.mp hmem
          have hjt : j < total := by rw [← halloclen]; exact hj
          obtain ⟨hB, hE⟩ := hallocB j hjt hj
          rw [← hget, hB, hE]
          have hpos1 : 0 < step * ((j : ℚ) + 1) := mul_pos hstep_pos (by positivity)
          have hpos2 : 0 < step * (9/10) := mul_pos hstep_pos (by norm_num)
          exact ⟨by linarith, by linarith, hclamp_lt ((j : ℚ) + 1) (hjq j hjt)⟩
        · intro i hi
          have hit : i < total := by rw [← halloclen]; exact hi
          refine ⟨hi, ?_, ?_⟩
          · rw [hBs i hi, halloclen, ← hstepdef]
          · obtain ⟨hB, hE⟩ := hallocB i hit hi
            rw [hE, hB, halloclen, ← hstepdef,
              min_eq_left (le_of_lt (hclamp_lt ((i : ℚ) + 1) (hjq i hit)))]
    | true =>
        simp only [if_true] at hf
        obtain ⟨hfr, -⟩ := some_pair_inj hf
        simp only [if_true]
        subst hfr
        set gen := generate (last_finish c endT step total) step stI with hgen
        set af := alloc_frames c endT step 1 sorted with haf
        have hgenlen : gen.length = 2 := rfl
        have hlen : (af ++ gen).length = total + 2 := by
          rw [List.length_append, halloclen, hgenlen]
        have hcoef : ∀ j (hj : j < (af ++ gen).length),
            ((af ++ gen).get ⟨j, hj⟩).tbegin =
              c + step * (if j < total then (j : ℚ) + 1
                else if j = total then (total : ℚ) + 9/10 else (total : ℚ) + 3/2) ∧
            ((af ++ gen).get ⟨j, hj⟩).tend =
              c + step * ((if j < total then (j : ℚ) + 1
                else if j = total then (total : ℚ) + 9/10 else (total : ℚ) + 3/2) +
                (if j < total then 9/10 else 3/10)) := by
          intro j hj
          by_cases hjt : j < total
          · have hj2 : j < af.length := by rw [halloclen]; exact hjt
            have hgel : (af ++ gen).get ⟨j, hj⟩ = af.get ⟨j, hj2⟩ := by
              simp only [List.get_eq_getElem]
              exact List.getElem_append_left hj2
            obtain ⟨hB, hE⟩ := hallocB j hjt hj2
            rw [hgel, hB, hE]
            simp only [if_pos hjt]
            constructor
            · trivial
            · ring
          · have hjtot : j < total + 2 := by rw [← hlen]; exact hj
            have hjge : af.length ≤ j := by rw [halloclen]; omega
            have hbound : j - af.length < gen.length := by
              rw [halloclen, hgenlen]
              omega
            have hgel : (af ++ gen).get ⟨j, hj⟩ = gen.get ⟨j - af.length, hbound⟩ := by
              simp only [List.get_eq_getElem]
              exact List.getElem_append_right hjge
            have hcases : j = total ∨ j = total + 1 := by omega
            rcases hcases with hjeq | hjeq
            · have hz : j - af.length = 0 := by rw [halloclen]; omega
              rw [hgel]
              simp only [hz, if_neg hjt, if_pos hjeq]
              constructor
              · show (last_finish c endT step total) = _
                rw [hlast]
                ring
              · show (last_finish c endT step total) + step * (3/10) = _
                rw [hlast]
                ring
            · have hz : j - af.length = 1 := by rw [halloclen]; omega
              rw [hgel]
              simp only [hz, if_neg hjt, if_neg (show ¬ j = total by omega)]
              constructor
              · show (last_finish c endT step total) + step * (6/10) = _
                rw [hlast]
                ring
              · show (last_finish c endT step total) + step * (9/10) = _
                rw [hlast]
                ring
        have hcoefmono : ∀ i j : ℕ, i < j → j < total + 2 →
            (if i < total then (i : ℚ) + 1
              else if i = total then (total : ℚ) + 9/10 else (total : ℚ) + 3/2) <
            (if j < total then (j : ℚ) + 1
              else if j = total then (total : ℚ) + 9/10 else (total : ℚ) + 3/2) := by
          intro i j hij hj
          by_cases hit : i < total <;> by_cases hjt : j < total
          · rw [if_pos hit, if_pos hjt]
            have : (i : ℚ) < (j : ℚ) := by exact_mod_cast hij
            linarith
          · rw [if_pos hit, if_neg hjt]
            have h1 : (i : ℚ) + 1 ≤ (total : ℚ) := hjq i hit
            split_ifs <;> linarith
          · omega
          · rw [if_neg hit, if_neg hjt]
            have hieq : i = total := by omega
            have hjeq : j = total + 1 := by omega
            rw [if_pos hieq, if_neg (by omega)]
            linarith
        have hcoef_le : ∀ j : ℕ, j < total + 2 →
            (if j < total then (j : ℚ) + 1
              else if j = total then (total : ℚ) + 9/10 else (total : ℚ) + 3/2) +
              (if j < total then (9/10 : ℚ) else 3/10) ≤ (total : ℚ) + 9/10 + 9/10 := by
          intro j hj
          by_cases hjt : j < total
          · rw [if_pos hjt, if_pos hjt]
            have := hjq j hjt
            linarith
          · rw [if_neg hjt, if_neg hjt]
            split_ifs <;> linarith
        refine ⟨?_, ?_, ?_⟩
        · rintro ⟨i, hi⟩ ⟨j, hj⟩ hij
          rw [(hcoef i hi).1, (hcoef j hj).1]
          have hj2 : j < total + 2 := by rw [← hlen]; exact hj
          have := mul_lt_mul_of_pos_left (hcoefmono i j hij hj2) hstep_pos
          linarith
        · intro fr hmem
          obtain ⟨⟨j, hj⟩, hget⟩ := List.mem_iff_get.mp hmem
          obtain ⟨hB, hE⟩ := hcoef j hj
          rw [← hget, hB, hE]
          have hj2 : j < total + 2 := by rw [← hlen]; exact hj
          have hcpos : (0 : ℚ) <
              (if j < total then (j : ℚ) + 1
                else if j = total then (total : ℚ) + 9/10 else (total : ℚ) + 3/2) := by
            split_ifs <;> positivity
          have hdpos : (0 : ℚ) < (if j < total then (9/10 : ℚ) else 3/10) := by
            split_ifs <;> norm_num
          refine ⟨?_, ?_, ?_⟩
          · have := mul_pos hstep_pos hcpos
            linarith
          · have h1 := mul_lt_mul_of_pos_left
              (show (if j < total then (j : ℚ) + 1
                  else if j = total then (total : ℚ) + 9/10 else (total : ℚ) + 3/2) <
                (if j < total then (j : ℚ) + 1
                  else if j = total then (total : ℚ) + 9/10 else (total : ℚ) + 3/2) +
                (if j < total then (9/10 : ℚ) else 3/10) from by linarith) hstep_pos
            linarith
          · have h1 := hcoef_le j hj2
            have h2 := mul_lt_mul_of_pos_left
              (show (if j < total then (j : ℚ) + 1
                  else if j = total then (total : ℚ) + 9/10 else (total : ℚ) + 3/2) +
                (if j < total then (9/10 : ℚ) else 3/10) < (total : ℚ) + 2 from by linarith)
              hstep_pos
            linarith
        · intro i hi
          have hit : i < total := by
            rw [hlen] at hi
            omega
          have hi2 : i < (af ++ gen).length := by
            rw [hlen]
            omega
          refine ⟨hi2, ?_, ?_⟩
          · rw [(hcoef i hi2).1, if_pos hit, hlen]
            have hn : (((total + 2 - 2 : ℕ)) : ℚ) = (total : ℚ) := by
              have : total + 2 - 2 = total := by omega
              rw [this]
            rw [hn, ← hstepdef]
          · obtain ⟨hB, hE⟩ := hcoef i hi2
            rw [hB, hE]
            simp only [if_pos hit]
            rw [hlen]
            have hn : (((total + 2 - 2 : ℕ)) : ℚ) = (total : ℚ) := by
              have : total + 2 - 2 = total := by omega
              rw [this]
            rw [hn, ← hstepdef]
            rw [min_eq_left]
            · ring
            · have := hclamp_lt ((i : ℚ) + 1) (hjq i hit)
              linarith

/-! ### C5: the appended stats events -/

lemma getLast?_cons_of_ne {α : Type} (x : α) (ys : List α) (h : ys ≠ []) :
    (x :: ys).getLast? = ys.getLast? := by
  cases ys with
  | nil => exact absurd rfl h
  | cons b t => rw [List.getLast?_cons_cons]

lemma alloc_frames_last_tend (c endT step : ℚ) :
    ∀ (i : ℕ) (l : List Item), l ≠ [] →
      ∃ lastF, (alloc_frames c endT step i l).getLast? = some lastF ∧
        lastF.tend =
          (if c + step * ((i + (l.length - 1) : ℕ) : ℚ) + step * (9/10) > endT
           then endT else c + step * ((i + (l.length - 1) : ℕ) : ℚ) + step * (9/10))
  | _, [], h => absurd rfl h
  | i, [it], _ => ⟨_, rfl, by simp [alloc_frames, frame_of_item_tend]⟩
  | i, a :: b :: l, _ => by
      obtain ⟨lastF, h1, h2⟩ :=
        alloc_frames_last_tend c endT step (i + 1) (b :: l) (by simp)
      have hne2 : alloc_frames c endT step (i + 1) (b :: l) ≠ [] := by
        intro hx
        have hl := alloc_frames_length c endT step (i + 1) (b :: l)
        rw [hx] at hl
        simp at hl
      have hcons : alloc_frames c endT step i (a :: b :: l) =
          (frame_of_item a (c + step * ((i : ℕ) : ℚ))
            (if c + step * ((i : ℕ) : ℚ) + step * (9/10) > endT then endT
             else c + step * ((i : ℕ) : ℚ) + step * (9/10))) ::
          alloc_frames c endT step (i + 1) (b :: l) := rfl
      refine ⟨lastF, ?_, ?_⟩
      · rw [hcons, getLast?_cons_of_ne _ _ hne2]
        exact h1
      · rw [h2]
        have hidx : ((i + 1) + ((b :: l).length - 1) : ℕ) =
            ((i + ((a :: b :: l).length - 1)) : ℕ) := by
          simp only [List.length_cons]
          omega
        rw [hidx]

/-- C5 (amended): when stats are enabled, every flushed cycle with a
non-empty batch ends with exactly two extra stats frames, the first tagged
packets and the second tagged errors, each carrying the semicolon-joined
counter rendering; writing `fin` for the end time of the last allocated
item and `step` for the slot width, they occupy the 0%-30% sub-slice
`[fin, fin + 0.3 * step)` and the 60%-90% sub-slice
`[fin + 0.6 * step, fin + 0.9 * step)` of the step-length interval
starting at `fin`. -/
theorem stats_events_appended (c endT : ℚ) (mosiN misoN : List Sample) (st st2 : Stats)
    (frames : List OutFrame)
    (hf : flush_cs (some c) endT mosiN misoN st true = some (frames, st2))
    (hne : frames ≠ []) :
    ∃ rest f1 f2,
      frames = rest ++ [f1, f2] ∧
      rest.length = frames.length - 2 ∧
      rest ≠ [] ∧
      ∃ lastF, rest.getLast? = some lastF ∧
        f1 = ⟨"stats", lastF.tend,
          lastF.tend + ((endT - c) / (((frames.length - 2 : ℕ) : ℚ) + 2)) * (3/10),
          [("info", "packets"), ("msg", packets_msg st2)]⟩ ∧
        f2 = ⟨"stats",
          lastF.tend + ((endT - c) / (((frames.length - 2 : ℕ) : ℚ) + 2)) * (6/10),
          lastF.tend + ((endT - c) / (((frames.length - 2 : ℕ) : ℚ) + 2)) * (9/10),
          [("info", "errors"), ("msg", errors_msg st2)]⟩ := by
  rcases hbe : build_error_items (some c) endT mosiN misoN st with ⟨errI, stE⟩
  rcases hbm : build_items_for_dir "MOSI" mosiN stE with ⟨mI, stM⟩
  rcases hbi : build_items_for_dir "MISO" misoN stM with ⟨iI, stI⟩
  simp only [flush_cs, hbe, hbm, hbi] at hf
  by_cases hempty : errI ++ mI ++ iI = []
  · rw [if_pos hempty] at hf
    obtain ⟨hfr, -⟩ := some_pair_inj hf
    exact absurd hfr.symm hne
  · rw [if_neg hempty] at hf
    simp only [if_true] at hf
    set items := errI ++ mI ++ iI with hitems
    set total := items.length with htotal
    have htot0 : 0 < total := List.length_pos.mpr hempty
    set step := (endT - c) / ((total : ℚ) + 2) with hstepdef
    set sorted := List.insertionSort (fun a b => item_key a ≤ item_key b) items with hsorted
    have hslen : sorted.length = total := by
      rw [hsorted, List.length_insertionSort]
    have hsne : sorted ≠ [] := by
      intro h
      rw [h] at hslen
      simp at hslen
      omega
    obtain ⟨hfr, hst⟩ := some_pair_inj hf
    subst hst
    subst hfr
    have hlen2 : (alloc_frames c endT step 1 sorted ++
        generate (last_finish c endT step total) step stI).length - 2 = total := by
      rw [List.length_append, alloc_frames_length, hslen]
      rfl
    have hafne : alloc_frames c endT step 1 sorted ≠ [] := by
      intro h
      have hl := alloc_frames_length c endT step 1 sorted
      rw [h, hslen] at hl
      simp at hl
      omega
    obtain ⟨lastF, hlastF, hlastT⟩ :=
      alloc_frames_last_tend c endT step 1 sorted hsne
    have hidx : ((1 + (sorted.length - 1)) : ℕ) = total := by
      rw [hslen]
      omega
    rw [hidx] at hlastT
    have hfin : lastF.tend = last_finish c endT step total := by
      rw [hlastT]
      simp only [last_finish]
    refine ⟨alloc_frames c endT step 1 sorted, _, _, rfl, ?_, hafne, lastF, hlastF, ?_, ?_⟩
    · rw [hlen2, alloc_frames_length, hslen]
    · rw [hlen2, ← hstepdef, hfin]
    · rw [hlen2, ← hstepdef, hfin]

/-- Test fixture: the single data frame produced by flushing the window
(0, 3) with the one MOSI nibble 1 (total = 1, step = 1). -/
def c4_frame : OutFrame := ⟨"nibble_ok", 1, 19/10, [("dir", "MOSI"), ("val", "0x1")]⟩

/-- Test fixture: the stats counters after that flush. -/
def c4_stats : Stats := ⟨1, 1, 0, 0, 0, 0, 0, 0⟩

/-- Test fixture: the full batch of the same flush with stats enabled. -/
def c5_frames : List OutFrame :=
  [⟨"nibble_ok", 1, 19/10, [("dir", "MOSI"), ("val", "0x1")]⟩,
   ⟨"stats", 19/10, 11/5, [("info", "packets"), ("msg", packets_msg ⟨1, 1, 0, 0, 0, 0, 0, 0⟩)]⟩,
   ⟨"stats", 5/2, 14/5, [("info", "errors"), ("msg", errors_msg ⟨1, 1, 0, 0, 0, 0, 0, 0⟩)]⟩]

/-- Witness for C4: the flush of window (0, 3) with one MOSI nibble. -/
theorem flush_timestamps_in_window_witness :
    (0 : ℚ) < 3 ∧
    ((∀ i j : Fin [c4_frame].length, (i : ℕ) < (j : ℕ) →
        ([c4_frame].get i).tbegin < ([c4_frame].get j).tbegin) ∧
      (∀ fr ∈ [c4_frame], (0 : ℚ) < fr.tbegin ∧ fr.tbegin < fr.tend ∧ fr.tend < 3) ∧
      (∀ i (hi : i < (if false then [c4_frame].length - 2 else [c4_frame].length)),
        ∃ hi2 : i < [c4_frame].length,
          ([c4_frame].get ⟨i, hi2⟩).tbegin =
            0 + ((3 - 0) /
              (((if false then [c4_frame].length - 2 else [c4_frame].length) : ℕ) + 2)) *
              ((i : ℚ) + 1) ∧
          ([c4_frame].get ⟨i, hi2⟩).tend =
            min (([c4_frame].get ⟨i, hi2⟩).tbegin +
              ((3 - 0) /
                (((if false then [c4_frame].length - 2 else [c4_frame].length) : ℕ) + 2)) *
                (9/10)) 3)) :=
  ⟨by norm_num,
    flush_timestamps_in_window 0 3 [(1, 0, 1)] [] initStats false [c4_frame] c4_stats
      (by norm_num)
      (by
        norm_num [flush_cs, build_error_items, build_items_for_dir, lt4_item,
          List.insertionSort, List.orderedInsert, item_key, alloc_frames, last_finish,
          frame_of_item, nibbleHex, hexDigitChar, merge_pair, incPacket4, initStats,
          c4_frame, c4_stats]
        rfl)⟩

/-- Counterexample for C5 as stated: flushing the window (0, 3) with one
MOSI nibble and stats enabled gives total = 1 and step = 1, so the slot
following the slot of the allocated item is (2, 3) and its 30%-60% sub-slice
starts at 2.3; but the first stats frame begins at 1.9, and its end (2.2)
differs from the begin (2.5) of the second stats frame, while the claimed
adjacent 30%-60% and 60%-90% sub-slices of one slot would have to touch at
the 60% point. -/
theorem stats_events_slot_counterexample :
    flush_cs (some 0) 3 [(1, 0, 1)] [] initStats true =
      some ([⟨"nibble_ok", 1, 19/10, [("dir", "MOSI"), ("val", "0x1")]⟩,
             ⟨"stats", 19/10, 11/5,
               [("info", "packets"), ("msg", packets_msg ⟨1, 1, 0, 0, 0, 0, 0, 0⟩)]⟩,
             ⟨"stats", 5/2, 14/5,
               [("info", "errors"), ("msg", errors_msg ⟨1, 1, 0, 0, 0, 0, 0, 0⟩)]⟩],
        ⟨1, 1, 0, 0, 0, 0, 0, 0⟩) ∧
    ¬ ((19 : ℚ)/10 = 2 + 3/10) ∧
    ¬ ((11 : ℚ)/5 = 5/2) := by
  refine ⟨?_, by norm_num, by norm_num⟩
  norm_num [flush_cs, build_error_items, build_items_for_dir, lt4_item,
    List.insertionSort, List.orderedInsert, item_key, alloc_frames, last_finish,
    frame_of_item, nibbleHex, hexDigitChar, merge_pair, incPacket4, initStats, generate]
  rfl

/-- Witness for C5 (amended): the same concrete flush with stats enabled. -/
theorem stats_events_appended_witness :
    ∃ rest f1 f2,
      c5_frames = rest ++ [f1, f2] ∧
      rest.length = c5_frames.length - 2 ∧
      rest ≠ [] ∧
      ∃ lastF, rest.getLast? = some lastF ∧
        f1 = ⟨"stats", lastF.tend,
          lastF.tend + ((3 - 0) / (((c5_frames.length - 2 : ℕ) : ℚ) + 2)) * (3/10),
          [("info", "packets"), ("msg", packets_msg ⟨1, 1, 0, 0, 0, 0, 0, 0⟩)]⟩ ∧
        f2 = ⟨"stats",
          lastF.tend + ((3 - 0) / (((c5_frames.length - 2 : ℕ) : ℚ) + 2)) * (6/10),
          lastF.tend + ((3 - 0) / (((c5_frames.length - 2 : ℕ) : ℚ) + 2)) * (9/10),
          [("info", "errors"), ("msg", errors_msg ⟨1, 1, 0, 0, 0, 0, 0, 0⟩)]⟩ :=
  stats_events_appended 0 3 [(1, 0, 1)] [] initStats ⟨1, 1, 0, 0, 0, 0, 0, 0⟩ c5_frames
    (by
      norm_num [flush_cs, build_error_items, build_items_for_dir, lt4_item,
        List.insertionSort, List.orderedInsert, item_key, alloc_frames, last_finish,
        frame_of_item, nibbleHex, hexDigitChar, merge_pair, incPacket4, initStats, generate,
        c5_frames]
      rfl)
    (by simp [c5_frames])

/-- Witness for C8: a concrete disable flush resets the accumulator, and
two states that differ only in their stats counters decode the empty event
list to accumulator-equal results. -/
theorem flush_resets_accumulator_witness :
    ((⟨false, none, [], [], c4_stats, false⟩ : State).cs_active = false ∧
      (⟨false, none, [], [], c4_stats, false⟩ : State).cs_start = none ∧
      (⟨false, none, [], [], c4_stats, false⟩ : State).mosi_nibbles = [] ∧
      (⟨false, none, [], [], c4_stats, false⟩ : State).miso_nibbles = [] ∧
      (⟨false, none, [], [], c4_stats, false⟩ : State).emit_stats =
        (⟨true, some 0, [(1, 0, 1)], [], initStats, false⟩ : State).emit_stats) ∧
    ((decode_list (init_state "False") [] = none ↔
        decode_list (⟨false, none, [], [], ⟨5, 2, 3, 0, 0, 0, 0, 0⟩, as_bool "False"⟩ : State)
          [] = none) ∧
      ∀ τ1 out1 τ2 out2, decode_list (init_state "False") [] = some (τ1, out1) →
        decode_list (⟨false, none, [], [], ⟨5, 2, 3, 0, 0, 0, 0, 0⟩, as_bool "False"⟩ : State)
          [] = some (τ2, out2) →
        acc_eq τ1 τ2 ∧ non_stats out1 = non_stats out2) :=
  ⟨flush_resets_accumulator.1 ⟨true, some 0, [(1, 0, 1)], [], initStats, false⟩
      ⟨"disable", 2, 3, none, none⟩ ⟨false, none, [], [], c4_stats, false⟩
      [c4_frame, ⟨"packet", 2, 3, [("dir", "CS"), ("info", "disable")]⟩] rfl
      (by
        norm_num [decode, flush_cs, build_error_items, build_items_for_dir, lt4_item,
          List.insertionSort, List.orderedInsert, item_key, alloc_frames, last_finish,
          frame_of_item, nibbleHex, hexDigitChar, merge_pair, incPacket4, initStats,
          packet_frame, c4_frame, c4_stats]
        rfl),
    flush_resets_accumulator.2 [] (init_state "False")
      ⟨false, none, [], [], ⟨5, 2, 3, 0, 0, 0, 0, 0⟩, as_bool "False"⟩
      ⟨rfl, rfl, rfl, rfl, rfl⟩⟩

end SpiHla
